import Mathlib

/- Verification of defaults2nix (src/main.go): a shallow embedding of the
   parse / filter / render pipeline, followed by theorems settling the
   specification claims.  Machine strings are modelled as Lean strings and
   the Go standard-library string functions used by the program are
   translated below on the character-list representation.  All definitions
   are structurally recursive so that concrete runs reduce in the kernel. -/

namespace D2N

/-- Whitespace test matching unicode.IsSpace on the ASCII range, as used by
    strings.TrimSpace and strings.Fields in the Go source. -/
def isSpaceGo (c : Char) : Bool :=
  c == ' ' || c == '\t' || c == '\n' || c == '\x0b' || c == '\x0c' || c == '\r'

/-- Drop leading whitespace characters. -/
def trimLeftL : List Char → List Char
  | [] => []
  | c :: rest => if isSpaceGo c then trimLeftL rest else c :: rest

/-- strings.TrimSpace on the character list. -/
def trimL (cs : List Char) : List Char :=
  trimLeftL ((trimLeftL cs.reverse).reverse)

/-- strings.TrimSpace. -/
def trimS (s : String) : String := String.mk (trimL s.data)

/-- Boolean list-prefix test (first argument is the pattern). -/
def prefixL : List Char → List Char → Bool
  | [], _ => true
  | _ :: _, [] => false
  | p :: ps, c :: cs => p == c && prefixL ps cs

/-- strings.HasPrefix. -/
def startsWithS (s pat : String) : Bool := prefixL pat.data s.data

/-- strings.HasSuffix. -/
def endsWithS (s pat : String) : Bool := prefixL pat.data.reverse s.data.reverse

/-- Substring occurrence test, strings.Contains. -/
def containsL : List Char → List Char → Bool
  | [], pat => pat.isEmpty
  | c :: rest, pat => prefixL pat (c :: rest) || containsL rest pat

/-- strings.Contains. -/
def containsS (s pat : String) : Bool := containsL s.data pat.data

/-- strings.Split with a one-character separator (the only form the Go
    source uses): occurrences+1 pieces, possibly empty. -/
def splitOnCharL (sep : Char) : List Char → List (List Char)
  | [] => [[]]
  | c :: rest =>
    let r := splitOnCharL sep rest
    if c == sep then [] :: r
    else
      match r with
      | [] => [[c]]
      | h :: t => (c :: h) :: t

/-- Helper for strings.ReplaceAll: the Nat argument counts pattern
    characters still to be skipped after a replacement was emitted. -/
def replaceAllAux : List Char → List Char → List Char → Nat → List Char
  | [], _, _, _ => []
  | _ :: rest, pat, repl, skip + 1 => replaceAllAux rest pat repl skip
  | c :: rest, pat, repl, 0 =>
    if !pat.isEmpty && prefixL pat (c :: rest) then
      repl ++ replaceAllAux rest pat repl (pat.length - 1)
    else
      c :: replaceAllAux rest pat repl 0

/-- strings.ReplaceAll (left-to-right, non-overlapping; every pattern the
    program replaces is non-empty). -/
def replaceAllS (s pat repl : String) : String :=
  String.mk (replaceAllAux s.data pat.data repl.data 0)

/-- strings.TrimSuffix. -/
def trimSuffixS (s suf : String) : String :=
  if endsWithS s suf then String.mk (s.data.take (s.data.length - suf.data.length)) else s

/-- strings.Join with a newline separator (the renderer only joins on a
    newline). -/
def joinNL : List String → String
  | [] => ""
  | [p] => p
  | p :: q :: rest => p ++ "\n" ++ joinNL (q :: rest)

/-- Helper for strings.Fields. -/
def fieldsAux : List Char → List Char → List (List Char)
  | [], cur => if cur.isEmpty then [] else [cur.reverse]
  | c :: rest, cur =>
    if isSpaceGo c then
      if cur.isEmpty then fieldsAux rest [] else cur.reverse :: fieldsAux rest []
    else fieldsAux rest (c :: cur)

/-- strings.Fields: whitespace-separated non-empty tokens. -/
def fieldsL (cs : List Char) : List (List Char) := fieldsAux cs []

/-- strings.Count with a one-character pattern. -/
def countCharL (cs : List Char) (c : Char) : Nat := cs.count c

/-- strings.Repeat of a two-space unit, used for indentation. -/
def indentStr (n : Nat) : String := String.mk (List.replicate (2 * n) ' ')

/-- Hexadecimal-digit test used by the identifier classifiers. -/
def hexDigitC (c : Char) : Bool :=
  c.isDigit || ('a' ≤ c && c ≤ 'f') || ('A' ≤ c && c ≤ 'F')

/-- Decimal digits to value; none when a non-digit occurs. -/
def digitsToNat : List Char → Nat → Option Nat
  | [], acc => some acc
  | c :: rest, acc =>
    if c.isDigit then digitsToNat rest (acc * 10 + (c.toNat - 48)) else none

/-- Non-empty all-digit run to value. -/
def atoiNat? (cs : List Char) : Option Nat :=
  if cs.isEmpty then none else digitsToNat cs 0

def int64Max : Nat := 9223372036854775807

/-- strconv.Atoi: optional sign, then decimal digits, within the 64-bit
    signed integer range; anything else is an error (none). -/
def atoi? (cs : List Char) : Option Int :=
  match cs with
  | '+' :: rest =>
    (atoiNat? rest).bind (fun n => if n ≤ int64Max then some (Int.ofNat n) else none)
  | '-' :: rest =>
    (atoiNat? rest).bind (fun n => if n ≤ int64Max + 1 then some (-(Int.ofNat n)) else none)
  | _ =>
    (atoiNat? cs).bind (fun n => if n ≤ int64Max then some (Int.ofNat n) else none)

/-- Decimal digit rendering helper with an explicit fuel (n+1 is always
    enough fuel for n). -/
def natDigitsAux : Nat → Nat → List Char
  | 0, _ => []
  | fuel + 1, n =>
    if n < 10 then [Char.ofNat (48 + n)]
    else natDigitsAux fuel (n / 10) ++ [Char.ofNat (48 + n % 10)]

/-- Canonical decimal rendering of a natural number. -/
def natToStr (n : Nat) : String := String.mk (natDigitsAux (n + 1) n)

/-- strconv.Itoa on the mathematical integer. -/
def intToStr (i : Int) : String :=
  if i < 0 then "-" ++ natToStr i.natAbs else natToStr i.toNat

/-- Exponent suffix of a decimal floating-point token. -/
def expOk : List Char → Bool
  | [] => true
  | e :: rest =>
    (e == 'e' || e == 'E') &&
      (let r2 :=
        match rest with
        | '+' :: r => r
        | '-' :: r => r
        | r => r
      !r2.isEmpty && r2.all Char.isDigit)

/-- Mandatory binary exponent of a hexadecimal floating-point token. -/
def pExpOk : List Char → Bool
  | [] => false
  | p :: rest =>
    (p == 'p' || p == 'P') &&
      (let r2 :=
        match rest with
        | '+' :: r => r
        | '-' :: r => r
        | r => r
      !r2.isEmpty && r2.all Char.isDigit)

/-- Decimal mantissa with optional fraction and exponent. -/
def decFloatOk (cs : List Char) : Bool :=
  let ip := cs.takeWhile Char.isDigit
  let r1 := cs.dropWhile Char.isDigit
  match r1 with
  | '.' :: r2 =>
    let fp := r2.takeWhile Char.isDigit
    let r3 := r2.dropWhile Char.isDigit
    (!ip.isEmpty || !fp.isEmpty) && expOk r3
  | _ => !ip.isEmpty && expOk r1

/-- Hexadecimal mantissa (after the 0x prefix) with mandatory p-exponent. -/
def hexFloatOk (cs : List Char) : Bool :=
  let ip := cs.takeWhile hexDigitC
  let r1 := cs.dropWhile hexDigitC
  match r1 with
  | '.' :: r2 =>
    let fp := r2.takeWhile hexDigitC
    let r3 := r2.dropWhile hexDigitC
    (!ip.isEmpty || !fp.isEmpty) && pExpOk r3
  | _ => !ip.isEmpty && pExpOk r1

/-- Unsigned part of the strconv.ParseFloat syntax; NaN is only accepted
    unsigned, matching Go. -/
def floatBody (allowNaN : Bool) (cs : List Char) : Bool :=
  let low := String.mk (cs.map Char.toLower)
  if low == "inf" || low == "infinity" then true
  else if allowNaN && low == "nan" then true
  else
    match cs with
    | '0' :: x :: rest =>
      if x == 'x' || x == 'X' then hexFloatOk rest else decFloatOk cs
    | _ => decFloatOk cs

/-- Syntactic recognizer for strconv.ParseFloat success.  The numeric value
    and rounding behaviour of ParseFloat are floating-point semantics that
    the embedding does not model; only acceptance is needed, because every
    claim either avoids the float path or only needs to know that it is not
    taken.  (Digit-group underscores of the Go literal syntax are not
    modelled; no input of interest contains them.) -/
def floatOkL (cs : List Char) : Bool :=
  match cs with
  | '+' :: rest => floatBody false rest
  | '-' :: rest => floatBody false rest
  | _ => floatBody true cs

/-- Stand-in for fmt.Sprintf with a %.15g verb.  Floating-point formatting
    is outside the shallow embedding; this branch is never exercised by any
    claim, and the stand-in returns the raw token. -/
def floatFormat (s : String) : String := s

end D2N

namespace D2N

/-- isBinaryDataValue part loop (src/main.go lines 235-249): count parts
    with a length/bytes prefix, fail on any other non-empty part. -/
def validKeysLoop : List (List Char) → Nat → Option Nat
  | [], n => some n
  | p :: rest, n =>
    let q := trimL p
    if q.isEmpty then validKeysLoop rest n
    else if prefixL ("length =").data q || prefixL ("bytes = 0x").data q then
      validKeysLoop rest (n + 1)
    else none

/-- isBinaryDataValue (src/main.go lines 208-253): detects the
    length/bytes binary-blob dictionary shape on the raw brace-delimited
    text. -/
def isBinaryDataValue (s : String) : Bool :=
  if !containsS s ("length =") || !containsS s ("bytes =") then false
  else if !containsS s ("bytes = 0x") then false
  else
    let content := trimL ((s.data.drop 1).dropLast)
    let parts :=
      if containsL content [';'] then splitOnCharL ';' content
      else splitOnCharL ',' content
    validKeysLoop parts 0 == some 2

/-- Fixed key substrings of isUIStateKey (src/main.go lines 257-274). -/
def statePatterns : List String :=
  ["NSWindow Frame ", "NSSplitView Subview Frames ", "NSNavPanelExpandedSize",
   "NSNavPanelFileLastListMode", "NSNavPanelFileListMode", "NSTableView Columns ",
   "NSTableView Sort Ordering ", "NSTableView Supports ", "Column Width",
   "UserColumnSortPerTab", "UserColumnsPerTab", "TB Icon Size Mode", "TB Size Mode",
   "image window frame", "image window parent frame", "NSPreferencesContentSize"]

/-- isUIStateKey (src/main.go lines 255-305). -/
def isUIStateKey (key : String) : Bool :=
  statePatterns.any (fun p => containsS key p) ||
  (containsS key ("NSToolbar Configuration") || containsS key ("ExtensionsToolbarConfiguration")) ||
  containsS key ("CropRect") ||
  (endsWithS key ("Frame") && (containsS key ("Window") || containsS key ("window"))) ||
  (containsS key ("cache") || containsS key ("Cache"))

/-- isUIStateValue (src/main.go lines 307-342): rectangle, size, frame
    vector and split-view shapes. -/
def isUIStateValue (v : String) : Bool :=
  (startsWithS v ("\x7b\x7b") && endsWithS v ("\x7d\x7d")) ||
  (startsWithS v ("\x7b") && endsWithS v ("\x7d") &&
    countCharL v.data ',' == 1 && !containsS v ("=")) ||
  (let parts := fieldsL v.data
   parts.length == 8 && parts.all (fun p => floatOkL p)) ||
  (countCharL v.data ',' == 5 &&
    (endsWithS (trimS v) ("NO") || endsWithS (trimS v) ("YES")))

/-- isDateString (src/main.go lines 344-419) on the character list:
    YYYY-MM-DD with bounds checks, optional space/T separator, and time
    validation only in the space-separated HH:MM:SS colon layout. -/
def isDateStringL (cs : List Char) : Bool :=
  if cs.length < 10 then false
  else if cs.getD 4 '?' == '-' && cs.getD 7 '?' == '-' then
    if !(cs.take 4).all Char.isDigit then false
    else
      let year := (cs.take 4).foldl (fun a c => a * 10 + (c.toNat - 48)) 0
      if year < 1900 || year > 2100 then false
      else if !(cs.getD 5 '?').isDigit || !(cs.getD 6 '?').isDigit then false
      else
        let month := ((cs.getD 5 '?').toNat - 48) * 10 + ((cs.getD 6 '?').toNat - 48)
        if month < 1 || month > 12 then false
        else if !(cs.getD 8 '?').isDigit || !(cs.getD 9 '?').isDigit then false
        else
          let day := ((cs.getD 8 '?').toNat - 48) * 10 + ((cs.getD 9 '?').toNat - 48)
          if day < 1 || day > 31 then false
          else if cs.length == 10 then true
          else if cs.length > 10 && (cs.getD 10 '?' == ' ' || cs.getD 10 '?' == 'T') then
            if cs.getD 10 '?' == ' ' && cs.length ≥ 19 then
              let tp := (cs.drop 11).take 8
              if tp.length == 8 && tp.getD 2 '?' == ':' && tp.getD 5 '?' == ':' then
                if !([0, 1, 3, 4, 6, 7].all (fun i => (tp.getD i '?').isDigit)) then false
                else
                  let hours := ((tp.getD 0 '?').toNat - 48) * 10 + ((tp.getD 1 '?').toNat - 48)
                  let minutes := ((tp.getD 3 '?').toNat - 48) * 10 + ((tp.getD 4 '?').toNat - 48)
                  let seconds := ((tp.getD 6 '?').toNat - 48) * 10 + ((tp.getD 7 '?').toNat - 48)
                  if hours > 23 || minutes > 59 || seconds > 59 then false
                  else true
              else true
            else true
          else false
  else false

/-- isDateString on strings. -/
def isDateString (s : String) : Bool := isDateStringL s.data

/-- isUUIDString (src/main.go lines 421-447) on the character list. -/
def isUUIDStringL (cs : List Char) : Bool :=
  cs.length == 36 &&
  cs.getD 8 '?' == '-' && cs.getD 13 '?' == '-' &&
  cs.getD 18 '?' == '-' && cs.getD 23 '?' == '-' &&
  (List.range 36).all (fun i =>
    i == 8 || i == 13 || i == 18 || i == 23 || hexDigitC (cs.getD i '?'))

/-- isUUIDString on strings. -/
def isUUIDString (s : String) : Bool := isUUIDStringL s.data

/-- isHashedIDString (src/main.go lines 449-470): underscore then 32 hex
    characters. -/
def isHashedIDString (s : String) : Bool :=
  match s.data with
  | '_' :: rest => rest.length == 32 && rest.all hexDigitC
  | _ => false

/-- isUUIDKey (src/main.go lines 472-489): the key is a UUID or contains a
    canonical UUID in some 36-character window. -/
def isUUIDKey (key : String) : Bool :=
  isUUIDStringL key.data ||
  (key.data.length ≥ 36 &&
    (List.range (key.data.length - 36 + 1)).any
      (fun i => isUUIDStringL ((key.data.drop i).take 36)))

/-- Timestamp vocabulary of isTimestampKey (src/main.go lines 496-505). -/
def timestampPatterns : List String :=
  ["time", "timestamp", "date", "epoch",
   "updated", "created", "modified", "changed",
   "lastused", "lastseen", "lastaccess", "lastconnected",
   "lastunseen", "lastvisit", "lastopen", "lastlaunch",
   "accessed", "visited", "opened", "launched",
   "expiry", "expires", "expired", "expiration",
   "checkedat", "setat", "startedat", "endedat",
   "since", "until", "when", "at"]

/-- isTimestampKey (src/main.go lines 491-521): case-insensitive substring
    match against the timestamp vocabulary, plus the at-sign special case. -/
def isTimestampKey (key : String) : Bool :=
  let lowerKey := String.mk (key.data.map Char.toLower)
  timestampPatterns.any (fun p => containsS lowerKey p) ||
  (containsS key ("@") &&
    (containsS lowerKey ("connected") || containsS lowerKey ("seen") ||
     containsS lowerKey ("accessed")))

end D2N

namespace D2N

/-- ParseConfig (src/main.go lines 202-206): the three filter toggles. -/
structure ParseConfig where
  noDates : Bool
  noState : Bool
  noUUIDs : Bool
deriving Repr, DecidableEq

/-- The all-filters-off configuration (Go zero value). -/
def cfgNone : ParseConfig := ⟨false, false, false⟩

/-- The Value interface with its four implementations (src/main.go lines
    17-98).  The Go map plus order-slice of DictValue is modelled as an
    association list with unique keys plus the order list; the association
    list is in insertion order, a deterministic stand-in for the
    unordered Go map, which the program only reads through keyed lookup
    and the order-less fallback. -/
inductive Value where
  | skip : Value
  | str (value : String) : Value
  | arr (values : List Value) : Value
  | dict (values : List (String × Value)) (order : List String) (config : ParseConfig) : Value
deriving Repr

/-- Tag test for SkipValue, the type assertion used by the renderers. -/
def Value.isSkipB : Value → Bool
  | .skip => true
  | _ => false

/-- Keyed map read. -/
def mapGet : List (String × Value) → String → Option Value
  | [], _ => none
  | (k, v) :: rest, key => if k == key then some v else mapGet rest key

/-- Keyed map write with overwrite (Go map assignment). -/
def mapSet : List (String × Value) → String → Value → List (String × Value)
  | [], key, v => [(key, v)]
  | (k, w) :: rest, key, v =>
    if k == key then (key, v) :: rest else (k, w) :: mapSet rest key v

/-- The Nix interpolation-start pattern (a dollar sign and open brace). -/
def interpPat : String := String.mk ['$', Char.ofNat 123]

/-- Its textually inert replacement: dollar, two single quotes, open
    brace. -/
def interpRepl : String := String.mk ['$', Char.ofNat 39, Char.ofNat 39, Char.ofNat 123]

/-- StringValue.ToNix (src/main.go lines 31-61): boolean collapse of the
    tokens 1 and 0, integer and float rendering, bare-identifier quoting,
    and the escaped generic string path. -/
def strToNix (s : String) : String :=
  if s == "1" then "true"
  else if s == "0" then "false"
  else
    match atoi? s.data with
    | some n => intToStr n
    | none =>
      if floatOkL s.data then floatFormat s
      else if !containsS s (" ") && !containsS s ("/") && !containsS s (".") &&
          !containsS s (":") && !s.data.isEmpty && s != "true" && s != "false" then
        "\"" ++ s ++ "\""
      else
        "\"" ++
          replaceAllS (replaceAllS (replaceAllS s ("\\") ("\\\\")) ("\"") ("\\\""))
            interpPat interpRepl ++ "\""

/-- The Nix reserved words of DictValue.ToNix (src/main.go lines 170-174). -/
def nixKeywords : List String :=
  ["with", "let", "in", "if", "then", "else", "assert", "rec",
   "inherit", "or", "and", "import", "builtins", "throw", "abort",
   "true", "false", "null"]

/-- The needsQuoting decision of DictValue.ToNix (src/main.go lines
    157-183): purely numeric key, digit-initial key, reserved word, or a
    space, hyphen, dot or leading quote. -/
def needsQuotingGo (key : String) : Bool :=
  (atoi? key.data).isSome ||
  (match key.data with
   | c :: _ => '0' ≤ c && c ≤ '9'
   | [] => false) ||
  nixKeywords.contains key ||
  (containsS key (" ") || containsS key ("-") || containsS key (".") ||
   startsWithS key ("\""))

/-- Quoted key form with internal quotes escaped (src/main.go line 186). -/
def quoteKeyEsc (key : String) : String :=
  "\"" ++ replaceAllS key ("\"") ("\\\"") ++ "\""

/-- Rendered form of a dictionary key (src/main.go lines 155-187): the
    quoted form is applied only when quoting is needed and the key does
    not already start with a quote character. -/
def nixKeyOf (key : String) : String :=
  if needsQuotingGo key && !startsWithS key ("\"") then quoteKeyEsc key else key

/-- Per-entry retention decision of the DictValue.ToNix loop (src/main.go
    lines 119-153).  In the Go source the NoDates branch holds an inner
    numeric-timestamp range check, but both of its outcomes execute
    continue, so an entry under a timestamp-matching key is dropped for
    every value; the translation collapses the two identical outcomes. -/
def keepEntry (cfg : ParseConfig) (key : String) (v : Value) : Bool :=
  !v.isSkipB &&
  !(cfg.noState && isUIStateKey key) &&
  !(cfg.noUUIDs && isUUIDKey key) &&
  !(cfg.noDates && isTimestampKey key)

/-- The ordered entries DictValue.ToNix emits: keys taken from the
    recorded order (map enumeration fallback when no order is recorded),
    keys missing from the map dropped, then the retention filter. -/
def keptEntries (values : List (String × Value)) (order : List String)
    (cfg : ParseConfig) : List (String × Value) :=
  let keys := if order.isEmpty then values.map (fun p => p.1) else order
  (keys.filterMap (fun k => (mapGet values k).map (fun v => (k, v)))).filter
    (fun p => keepEntry cfg p.1 p.2)

/-- Fuel-indexed ToNix dispatch (src/main.go lines 23-200).  One fuel unit
    is consumed per nesting level so the definition is structural and
    kernel-evaluable; the wrapper below always supplies enough fuel.  The
    two branches of the Go multiline check (lines 190-195) build the same
    string and are collapsed. -/
def Value.toNixF : Nat → Value → Nat → String
  | 0, _, _ => ""
  | fuel + 1, v, ind =>
    match v with
    | .skip => ""
    | .str s => strToNix s
    | .arr vs =>
      let valid := vs.filter (fun w => !w.isSkipB)
      if valid.isEmpty then "[]"
      else
        joinNL (("[" ::
          valid.map (fun w => indentStr (ind + 1) ++ Value.toNixF fuel w (ind + 1))) ++
          [indentStr ind ++ "]"])
    | .dict values order cfg =>
      if values.isEmpty then "\x7b\x7d"
      else
        joinNL (("\x7b" ::
          (keptEntries values order cfg).map (fun p =>
            indentStr (ind + 1) ++ nixKeyOf p.1 ++ " = " ++
              Value.toNixF fuel p.2 (ind + 1) ++ ";")) ++
          [indentStr ind ++ "\x7d"])

/-- Fuel bound for the wrapper renderer: sixty-four nesting levels exceed
    the depth of any preference tree the tool meets, and each universal
    rendering theorem below is proved for every fuel. -/
def renderFuel : Nat := 64

/-- Value.ToNix at an indentation depth. -/
def Value.toNix (v : Value) (ind : Nat) : String := Value.toNixF renderFuel v ind

/-- The whitespace set the dictionary scanner skips after a semicolon
    (src/main.go line 774). -/
def wsSkip4 (c : Char) : Bool :=
  c == ' ' || c == '\t' || c == '\n' || c == '\r'

/-- Character scanner of parseDictWithConfig (src/main.go lines 702-799):
    alternates key and value modes, tracks nesting depth, quote state and
    a pending escape, and returns the committed (key, raw value) pairs in
    commit order.  An escaped character or a backslash is appended to the
    value accumulator even in key mode, exactly as in the source.  The
    key is trimmed when the separator is found; the raw value is trimmed
    by the caller at parse time, as in the source.  The final pair is
    committed when both accumulators are non-empty (src/main.go line 795).
    The Nat is structural fuel; one character is consumed per step, so
    length plus one suffices. -/
def dictScanF : Nat → List Char → Bool → List Char → List Char → Int → Bool → Bool →
    List (List Char × List Char)
  | 0, _, _, key, val, _, _, _ =>
    if !key.isEmpty && !val.isEmpty then [(key, val)] else []
  | _ + 1, [], _, key, val, _, _, _ =>
    if !key.isEmpty && !val.isEmpty then [(key, val)] else []
  | fuel + 1, c :: rest, inKey, key, val, depth, inQuotes, escape =>
    if escape then dictScanF fuel rest inKey key (val ++ [c]) depth inQuotes false
    else if c == '\\' then dictScanF fuel rest inKey key (val ++ [c]) depth inQuotes true
    else if c == '"' then
      if inKey then dictScanF fuel rest inKey (key ++ [c]) val depth (!inQuotes) false
      else dictScanF fuel rest inKey key (val ++ [c]) depth (!inQuotes) false
    else if !inQuotes then
      if inKey then
        if c == '=' && decide (2 ≤ rest.length) && rest.headD '?' == ' ' then
          dictScanF fuel (rest.drop 1) false (trimL key) val depth inQuotes false
        else dictScanF fuel rest inKey (key ++ [c]) val depth inQuotes false
      else
        let depth2 :=
          if c == '\x7b' || c == '(' then depth + 1
          else if c == '\x7d' || c == ')' then depth - 1
          else depth
        if c == ';' && depth2 == 0 then
          (key, val) ::
            dictScanF fuel (rest.dropWhile wsSkip4) true [] [] depth2 inQuotes false
        else dictScanF fuel rest inKey key (val ++ [c]) depth2 inQuotes false
    else
      if inKey then dictScanF fuel rest inKey (key ++ [c]) val depth inQuotes false
      else dictScanF fuel rest inKey key (val ++ [c]) depth inQuotes false

/-- Element scanner of parseArrayElementsWithConfig (src/main.go lines
    626-685): splits the content on commas at nesting depth zero outside
    quotes, returning the raw pieces in order. -/
def arrScan : List Char → List Char → Int → Bool → Bool → List (List Char)
  | [], cur, _, _, _ => [cur]
  | c :: rest, cur, depth, inQuotes, escape =>
    if escape then arrScan rest (cur ++ [c]) depth inQuotes false
    else if c == '\\' then arrScan rest (cur ++ [c]) depth inQuotes true
    else if c == '"' then arrScan rest (cur ++ [c]) depth (!inQuotes) false
    else if !inQuotes then
      let depth2 :=
        if c == '(' || c == '\x7b' then depth + 1
        else if c == ')' || c == '\x7d' then depth - 1
        else depth
      if c == ',' && depth2 == 0 then cur :: arrScan rest [] depth2 false false
      else arrScan rest (cur ++ [c]) depth2 inQuotes false
    else arrScan rest (cur ++ [c]) depth inQuotes false

/-- parseArrayWithConfig with parseArrayElementsWithConfig (src/main.go
    lines 610-685), parameterized by the recursive value parser: strip the
    parentheses, trim; each raw element is trimmed, stripped of a trailing
    semicolon and dropped when empty. -/
def parseArrayWith (pv : String → Value) (input : String) : Value :=
  let content := trimL ((input.data.drop 1).dropLast)
  if content.isEmpty then .arr []
  else
    .arr (((arrScan content [] 0 false false).map
        (fun e => trimSuffixS (String.mk (trimL e)) (";"))).filterMap
      (fun e => if e.data.isEmpty then none else some (pv e)))

/-- Commit of one scanned pair (src/main.go lines 761-765 and 795-798):
    the trimmed raw value is parsed and written into the map with
    overwrite semantics, and the key is appended to the order list. -/
def dictCommit (pv : String → Value) (acc : List (String × Value) × List String)
    (p : List Char × List Char) : List (String × Value) × List String :=
  (mapSet acc.1 (String.mk p.1) (pv (String.mk (trimL p.2))),
   acc.2 ++ [String.mk p.1])

/-- parseDictWithConfig core (src/main.go lines 691-802), parameterized by
    the recursive value parser: strip the braces, trim, scan into pairs,
    then commit each pair in order. -/
def parseDictWith (pv : String → Value) (input : String) :
    List (String × Value) × List String :=
  let content := trimL ((input.data.drop 1).dropLast)
  if content.isEmpty then ([], [])
  else
    let pairs := dictScanF (content.length + 1) content true [] [] 0 false false
    pairs.foldl (dictCommit pv) ([], [])

/-- parseValueWithConfig (src/main.go lines 543-604), fuel-indexed for the
    mutual recursion through containers.  The wrapper supplies input
    length plus one fuel, which exceeds the nesting depth, itself bounded
    by half the input length. -/
def parseValueF : Nat → String → ParseConfig → Value
  | 0, input, _ => .str (trimS input)
  | fuel + 1, input, cfg =>
    let t := trimS input
    if startsWithS t ("(") && endsWithS t (")") then
      parseArrayWith (fun s => parseValueF fuel s cfg) t
    else if startsWithS t ("\x7b") && endsWithS t ("\x7d") then
      if isBinaryDataValue t then .skip
      else
        let p := parseDictWith (fun s => parseValueF fuel s cfg) t
        .dict p.1 p.2 cfg
    else if startsWithS t ("\"") && endsWithS t ("\"") && decide (1 < t.data.length) then
      let un := replaceAllS
        (replaceAllS (String.mk ((t.data.drop 1).dropLast)) ("\\\"") ("\""))
        ("\\\\") ("\\")
      if cfg.noDates && isDateString un then .skip
      else if cfg.noState && isUIStateValue un then .skip
      else if cfg.noUUIDs && (isUUIDString un || isHashedIDString un) then .skip
      else .str un
    else
      if cfg.noDates && isDateString t then .skip
      else if cfg.noState && isUIStateValue t then .skip
      else if cfg.noUUIDs && (isUUIDString t || isHashedIDString t) then .skip
      else .str t

/-- parseValueWithConfig at its always-sufficient fuel. -/
def parseValueWithConfig (input : String) (cfg : ParseConfig) : Value :=
  parseValueF (input.data.length + 1) input cfg

/-- parseValue (src/main.go lines 539-541): the zero configuration. -/
def parseValueGo (input : String) : Value := parseValueWithConfig input cfgNone

/-- parseDictWithConfig as the Go function returns it: the DictValue with
    map, order and stored configuration. -/
def parseDictWithConfig (input : String) (cfg : ParseConfig) : Value :=
  let p := parseDictWith (fun s => parseValueF (input.data.length + 1) s cfg) input
  Value.dict p.1 p.2 cfg

/-- bufio line scanning of convertDefaultsWithConfig (src/main.go lines
    809-814): tokens split on newline, one trailing carriage return
    stripped per token, no token for the empty tail after a final
    newline. -/
def scanLines (cs : List Char) : List (List Char) :=
  let pieces := splitOnCharL '\n' cs
  let pieces2 := if pieces.getLast? == some [] then pieces.dropLast else pieces
  pieces2.map (fun l => if l.getLast? == some '\r' then l.dropLast else l)

/-- convertDefaultsWithConfig (src/main.go lines 808-823): re-join the
    scanned lines with newlines, trim the whole text, parse once and
    render from depth zero.  Reading from an in-memory string never fails,
    so the single error path of the Go function is not taken. -/
def convertDefaultsWithConfig (input : String) (cfg : ParseConfig) : String :=
  let content := (scanLines input.data).foldl (fun acc l => acc ++ l ++ ['\n']) []
  let inputStr := String.mk (trimL content)
  (parseValueWithConfig inputStr cfg).toNix 0

end D2N

namespace D2N

/-- Claim-side quoting triggers for C8, following the words of the
    specification: purely numeric key, digit-initial key, reserved word,
    or a space, hyphen or dot; the leading-quote case is kept separate. -/
def keyQuotingTriggers (key : String) : Bool :=
  (atoi? key.data).isSome ||
  (match key.data with
   | c :: _ => '0' ≤ c && c ≤ '9'
   | [] => false) ||
  nixKeywords.contains key ||
  (containsS key (" ") || containsS key ("-") || containsS key ("."))

/-- The non-empty trimmed parts of a brace-delimited text, split on a
    semicolon when one occurs anywhere and on a comma otherwise; the part
    decomposition named by claim C6. -/
def binaryParts (s : String) : List (List Char) :=
  let content := trimL ((s.data.drop 1).dropLast)
  let raw :=
    if containsL content [';'] then splitOnCharL ';' content
    else splitOnCharL ',' content
  (raw.map trimL).filter (fun p => !p.isEmpty)

/-- Claim C6 as stated: exactly two parts, one matching each of the two
    prefixes. -/
def binaryClaimPred (s : String) : Bool :=
  (binaryParts s).length == 2 &&
  (binaryParts s).any (fun p => prefixL ("length =").data p) &&
  (binaryParts s).any (fun p => prefixL ("bytes = 0x").data p)

/-- Claim C6 amended to the code: the two global substring guards, and
    every non-empty trimmed part carries one of the two prefixes, with
    exactly two such parts (not necessarily one of each). -/
def isBinaryAmended (s : String) : Bool :=
  containsS s ("length =") && containsS s ("bytes =") && containsS s ("bytes = 0x") &&
  (binaryParts s).all
    (fun p => prefixL ("length =").data p || prefixL ("bytes = 0x").data p) &&
  (binaryParts s).length == 2

/-- Claim-side date shape for C7: begins with a bounds-checked YYYY-MM-DD,
    optionally followed by a space or T separator and more text. -/
def dateShapeClaim (cs : List Char) : Bool :=
  decide (10 ≤ cs.length) &&
  (cs.take 4).all Char.isDigit &&
  (let year := (cs.take 4).foldl (fun a c => a * 10 + (c.toNat - 48)) 0
   decide (1900 ≤ year) && decide (year ≤ 2100)) &&
  cs.getD 4 '?' == '-' && cs.getD 7 '?' == '-' &&
  (cs.getD 5 '?').isDigit && (cs.getD 6 '?').isDigit &&
  (let month := ((cs.getD 5 '?').toNat - 48) * 10 + ((cs.getD 6 '?').toNat - 48)
   decide (1 ≤ month) && decide (month ≤ 12)) &&
  (cs.getD 8 '?').isDigit && (cs.getD 9 '?').isDigit &&
  (let day := ((cs.getD 8 '?').toNat - 48) * 10 + ((cs.getD 9 '?').toNat - 48)
   decide (1 ≤ day) && decide (day ≤ 31)) &&
  (cs.length == 10 || cs.getD 10 '?' == ' ' || cs.getD 10 '?' == 'T')

/-- Claim-side time-component presence for C7: an HH:MM:SS-shaped digit
    and colon block follows the separator. -/
def timeComponentPresent (cs : List Char) : Bool :=
  decide (19 ≤ cs.length) && cs.getD 13 '?' == ':' && cs.getD 16 '?' == ':' &&
  ([11, 12, 14, 15, 17, 18].all (fun i => (cs.getD i '?').isDigit))

/-- Claim-side time bounds for C7. -/
def timeBoundsOk (cs : List Char) : Bool :=
  decide (((cs.getD 11 '?').toNat - 48) * 10 + ((cs.getD 12 '?').toNat - 48) ≤ 23) &&
  decide (((cs.getD 14 '?').toNat - 48) * 10 + ((cs.getD 15 '?').toNat - 48) ≤ 59) &&
  decide (((cs.getD 17 '?').toNat - 48) * 10 + ((cs.getD 18 '?').toNat - 48) ≤ 59)

/-- Claim C7 as stated: acceptance is the bounds-checked shape, and any
    present time component must satisfy the bounds. -/
def dateClaimPred (cs : List Char) : Bool :=
  dateShapeClaim cs && (!timeComponentPresent cs || timeBoundsOk cs)

end D2N

namespace D2N

set_option maxRecDepth 40000

/-- C1: the full convert pipeline on the Safari-style example input with
    all three filters off produces exactly the expected attribute set. -/
theorem c1_end_to_end :
    convertDefaultsWithConfig
      ("\x7bAllowJavaScriptFromAppleEvents = 1; AutoOpenSafeDownloads = 0; HomePage = \"https://example.com\"; Items = (a, b);\x7d")
      cfgNone =
    "\x7b\n  AllowJavaScriptFromAppleEvents = true;\n  AutoOpenSafeDownloads = false;\n  HomePage = \"https://example.com\";\n  Items = [\n    \"a\"\n    \"b\"\n  ];\n\x7d" := by
  decide

/-- C2: parsing is a total function for every input and configuration
    (the embedding has no error path, matching the raising-free Go code);
    in particular the unterminated input from the claim collapses to a
    single Scalar under every configuration and still converts to output
    text rather than aborting. -/
theorem c2_parser_total_and_forgiving :
    (∀ (input : String) (cfg : ParseConfig), ∃ v : Value, parseValueWithConfig input cfg = v) ∧
    (∀ cfg : ParseConfig,
      parseValueWithConfig ("\x7bkey = value") cfg = Value.str ("\x7bkey = value")) ∧
    (∀ cfg : ParseConfig,
      convertDefaultsWithConfig ("\x7bkey = value") cfg = "\"\x7bkey = value\"") := by
  refine ⟨fun input cfg => ⟨_, rfl⟩, ?_, ?_⟩ <;>
    (intro cfg; obtain ⟨d, s, u⟩ := cfg; cases d <;> cases s <;> cases u <;> rfl)

/-- C3 counterexample: a Dict whose single entry is Skip-valued does not
    render as the empty-map literal; it renders as an open brace and a
    closing brace on separate lines. -/
theorem c3_counterexample :
    (Value.dict [("k", Value.skip)] ["k"] cfgNone).toNix 0 = "\x7b\n\x7d" ∧
    (Value.dict [("k", Value.skip)] ["k"] cfgNone).toNix 0 ≠ "\x7b\x7d" := by
  exact ⟨by decide, by decide⟩

/-- C4 counterexample: parsing a dictionary in which the key a appears
    twice yields an ordered key list with two entries for the single
    distinct committed key, while the map itself holds the last value. -/
theorem c4_counterexample :
    parseDictWithConfig ("\x7ba = 1; a = 2;\x7d") cfgNone =
      Value.dict [("a", Value.str "2")] ["a", "a"] cfgNone ∧
    (parseDictWith (fun s => parseValueF 16 s cfgNone) ("\x7ba = 1; a = 2;\x7d")).2 =
      ["a", "a"] ∧
    (parseDictWith (fun s => parseValueF 16 s cfgNone) ("\x7ba = 1; a = 2;\x7d")).1.map
      Prod.fst = ["a"] := by
  exact ⟨rfl, rfl, rfl⟩

/-- C6 counterexample: a brace-delimited text accepted by the detector on
    which the claim-stated part condition fails, because both parts carry
    the length prefix and the bytes pattern only occurs inside one of
    them. -/
theorem c6_counterexample :
    isBinaryDataValue ("\x7blength = bytes = 0x1; length = 2;\x7d") = true ∧
    binaryClaimPred ("\x7blength = bytes = 0x1; length = 2;\x7d") = false := by
  exact ⟨by decide, by decide⟩

/-- C7 counterexample: a date with a T separator and an out-of-bounds time
    component is accepted by the detector, though the claim requires
    rejection whenever a present time component exceeds its bounds. -/
theorem c7_counterexample :
    isDateString ("2025-06-07T25:61:61") = true ∧
    dateClaimPred ("2025-06-07T25:61:61").data = false := by
  exact ⟨by decide, by decide⟩

/-- C8 counterexample: a key that starts with a quote character triggers
    the claim-stated quoting condition, yet the renderer emits it verbatim
    rather than re-quoted with escaped internal quotes. -/
theorem c8_counterexample :
    nixKeyOf ("\"a b\"") = "\"a b\"" ∧
    (keyQuotingTriggers ("\"a b\"") || startsWithS ("\"a b\"") ("\"")) = true ∧
    quoteKeyEsc ("\"a b\"") ≠ "\"a b\"" := by
  exact ⟨by decide, by decide, by decide⟩

/-- C9 counterexample: the input contains no space-equals-space sequence,
    yet the scanner terminates the key at the equals sign followed by a
    space and commits the pair, so keys do not end exactly at the literal
    three-character sequence. -/
theorem c9_counterexample :
    containsS ("\x7ba= b;\x7d") (" = ") = false ∧
    parseDictWithConfig ("\x7ba= b;\x7d") cfgNone =
      Value.dict [("a", Value.str "b")] ["a"] cfgNone := by
  exact ⟨by decide, rfl⟩

/-- C9 amended: a key ends at an equals sign immediately followed by a
    space with at least one further character, whitespace before the
    equals sign being trimmed from the key; an equals sign not followed by
    a space never terminates the key, and quoted equals signs are inert. -/
theorem c9_amended :
    parseDictWithConfig ("\x7ba = b;\x7d") cfgNone =
      Value.dict [("a", Value.str "b")] ["a"] cfgNone ∧
    parseDictWithConfig ("\x7ba= b;\x7d") cfgNone =
      Value.dict [("a", Value.str "b")] ["a"] cfgNone ∧
    parseDictWithConfig ("\x7ba  =  b;\x7d") cfgNone =
      Value.dict [("a", Value.str "b")] ["a"] cfgNone ∧
    parseDictWithConfig ("\x7ba =b;\x7d") cfgNone = Value.dict [] [] cfgNone ∧
    parseDictWithConfig ("\x7ba =\x7d") cfgNone = Value.dict [] [] cfgNone ∧
    parseDictWithConfig ("\x7b\"a = b\" = c;\x7d") cfgNone =
      Value.dict [("\"a = b\"", Value.str "c")] ["\"a = b\""] cfgNone := by
  exact ⟨rfl, rfl, rfl, rfl, rfl, rfl⟩

end D2N

namespace D2N

set_option maxRecDepth 40000

/-- C5: with date suppression on, the renderer retention test fails for
    every value under a timestamp-matching key, and consequently no kept
    entry of any rendered dictionary carries such a key. -/
theorem c5_timestamp_key_drop :
    (∀ (cfg : ParseConfig) (key : String) (v : Value),
      cfg.noDates = true → isTimestampKey key = true → keepEntry cfg key v = false) ∧
    (∀ (values : List (String × Value)) (order : List String) (cfg : ParseConfig)
      (key : String), cfg.noDates = true → isTimestampKey key = true →
      (keptEntries values order cfg).all (fun p => !(p.1 == key)) = true) := by
  have h1 : ∀ (cfg : ParseConfig) (key : String) (v : Value),
      cfg.noDates = true → isTimestampKey key = true → keepEntry cfg key v = false := by
    intro cfg key v hd hts
    simp [keepEntry, hd, hts]
  refine ⟨h1, ?_⟩
  intro values order cfg key hd hts
  rw [List.all_eq_true]
  intro p hp
  simp only [keptEntries] at hp
  have hkeep : keepEntry cfg p.1 p.2 = true := by
    simpa using (List.mem_filter.mp hp).2
  by_cases hk : p.1 = key
  · rw [hk, h1 cfg key p.2 hd hts] at hkeep
    cases hkeep
  · simp [hk]

/-- Witness for C5 at a concrete timestamp-shaped key under the dates
    filter. -/
theorem c5_timestamp_key_drop_witness :
    keepEntry ⟨true, false, false⟩ "LastUsedDate" (Value.str "12345") = false ∧
    (keptEntries [("LastUsedDate", Value.str "9999"), ("Name", Value.str "x")]
      ["LastUsedDate", "Name"] ⟨true, false, false⟩).all
      (fun p => !(p.1 == "LastUsedDate")) = true := by
  exact ⟨c5_timestamp_key_drop.1 ⟨true, false, false⟩ "LastUsedDate"
      (Value.str "12345") (by decide) (by decide),
    c5_timestamp_key_drop.2 [("LastUsedDate", Value.str "9999"), ("Name", Value.str "x")]
      ["LastUsedDate", "Name"] ⟨true, false, false⟩ "LastUsedDate" (by decide) (by decide)⟩

/-- C8 amended: a key that already starts with a quote character is
    emitted verbatim; any other key is wrapped in quotes with internal
    quotes escaped exactly when a quoting trigger holds (purely numeric,
    digit-initial, reserved word, or containing a space, hyphen or dot);
    the four example keys render as the claim lists them. -/
theorem c8_amended :
    (∀ key : String, startsWithS key ("\"") = true → nixKeyOf key = key) ∧
    (∀ key : String, startsWithS key ("\"") = false →
      nixKeyOf key = if keyQuotingTriggers key then quoteKeyEsc key else key) ∧
    nixKeyOf ("123") = "\"123\"" ∧ nixKeyOf ("with") = "\"with\"" ∧
    nixKeyOf ("com.apple.Safari") = "\"com.apple.Safari\"" ∧
    nixKeyOf ("simpleKey") = "simpleKey" := by
  refine ⟨?_, ?_, by decide, by decide, by decide, by decide⟩
  · intro key h
    simp [nixKeyOf, h]
  · intro key h
    simp only [nixKeyOf, needsQuotingGo, keyQuotingTriggers, h, Bool.or_false,
      Bool.not_false, Bool.and_true]

/-- Witness for C8 amended: a quote-initial key passes through verbatim
    and a key with a space is quoted. -/
theorem c8_amended_witness :
    nixKeyOf ("\"x\"y") = "\"x\"y" ∧ nixKeyOf ("a b") = "\"a b\"" := by
  refine ⟨c8_amended.1 ("\"x\"y") (by decide), ?_⟩
  rw [c8_amended.2.1 ("a b") (by decide)]
  decide

/-- The array parser never returns Skip: both of its outcomes are Array
    values. -/
theorem parseArrayWith_ne_skip (pv : String → Value) (input : String) :
    parseArrayWith pv input ≠ Value.skip := by
  simp only [parseArrayWith]
  split <;> simp

/-- A string starting with an open parenthesis does not start with an open
    brace. -/
theorem starts_paren_not_brace (s : String) :
    startsWithS s ("(") = true → startsWithS s ("\x7b") = false := by
  obtain ⟨data⟩ := s
  cases data with
  | nil => simp [startsWithS, prefixL]
  | cons c rest =>
    simp only [startsWithS, prefixL, Bool.and_true]
    intro h
    have : c = '(' := by
      have := of_decide_eq_true h
      exact this.symm
    subst this
    decide

/-- C10: with every filter off, the parser returns Skip exactly when the
    trimmed token is brace-delimited and matches the binary-blob shape;
    array elements and dictionary values are parsed by the same function,
    so nothing else ever becomes Skip. -/
theorem c10_skip_only_binary (input : String) :
    parseValueWithConfig input cfgNone = Value.skip ↔
    (startsWithS (trimS input) ("\x7b") = true ∧ endsWithS (trimS input) ("\x7d") = true ∧
     isBinaryDataValue (trimS input) = true) := by
  show parseValueF (input.data.length + 1) input cfgNone = Value.skip ↔ _
  rw [parseValueF]
  by_cases h1 : (startsWithS (trimS input) ("(") && endsWithS (trimS input) (")")) = true
  · rw [if_pos h1]
    refine iff_of_false (parseArrayWith_ne_skip _ _) ?_
    rintro ⟨hb, -, -⟩
    rw [starts_paren_not_brace _ (Bool.and_elim_left h1)] at hb
    cases hb
  · rw [if_neg h1]
    by_cases h2 : (startsWithS (trimS input) ("\x7b") && endsWithS (trimS input) ("\x7d")) = true
    · rw [if_pos h2]
      by_cases h3 : isBinaryDataValue (trimS input) = true
      · rw [if_pos h3]
        exact iff_of_true rfl
          ⟨Bool.and_elim_left h2, Bool.and_elim_right h2, h3⟩
      · rw [if_neg h3]
        refine iff_of_false (by simp) ?_
        rintro ⟨-, -, hb⟩
        exact h3 hb
    · rw [if_neg h2]
      have hrhs : ¬ (startsWithS (trimS input) ("\x7b") = true ∧
          endsWithS (trimS input) ("\x7d") = true ∧
          isBinaryDataValue (trimS input) = true) := by
        rintro ⟨ha, hb, -⟩
        exact h2 (by rw [ha, hb]; rfl)
      by_cases h4 : (startsWithS (trimS input) ("\"") && endsWithS (trimS input) ("\"") &&
          decide (1 < (trimS input).data.length)) = true
      · rw [if_pos h4]
        simp only [cfgNone, Bool.false_and, if_neg (by decide : ¬ (false = true))]
        exact iff_of_false (by simp) hrhs
      · rw [if_neg h4]
        simp only [cfgNone, Bool.false_and, if_neg (by decide : ¬ (false = true))]
        exact iff_of_false (by simp) hrhs

end D2N

namespace D2N

set_option maxRecDepth 40000

/-- The part loop of isBinaryDataValue counts the non-empty trimmed parts
    when each carries one of the two prefixes, and fails otherwise. -/
theorem validKeysLoop_eq (parts : List (List Char)) (n : Nat) :
    validKeysLoop parts n =
      (if ((parts.map trimL).filter (fun p => !p.isEmpty)).all
          (fun p => prefixL ("length =").data p || prefixL ("bytes = 0x").data p)
       then some (n + ((parts.map trimL).filter (fun p => !p.isEmpty)).length)
       else none) := by
  induction parts generalizing n with
  | nil => simp [validKeysLoop]
  | cons p rest ih =>
    by_cases he : (trimL p).isEmpty
    · simp [validKeysLoop, he, ih n]
    · by_cases hp : (prefixL ("length =").data (trimL p) ||
          prefixL ("bytes = 0x").data (trimL p)) = true
      · simp only [validKeysLoop, Bool.not_eq_true] at *
        simp [he, hp, ih (n + 1)]
        split <;> simp <;> omega
      · simp only [Bool.not_eq_true] at hp
        simp [validKeysLoop, he, hp]

/-- An if-guarded count compared with some 2 is the guard with the count
    comparison. -/
theorem ifCount_beq (b : Bool) (L : Nat) :
    ((if b = true then some L else none) == some 2) = (b && (L == 2)) := by
  cases b <;> rfl

/-- C6 amended: the detector accepts exactly when both the length and the
    hex bytes substrings occur somewhere in the text and the content
    splits into exactly two non-empty trimmed parts, each carrying one of
    the two prefixes (not necessarily one of each); the two example inputs
    of the claim behave as it states. -/
theorem c6_amended :
    (∀ s : String, isBinaryDataValue s = isBinaryAmended s) ∧
    parseValueWithConfig ("\x7blength = 256; bytes = 0x89504e47;\x7d") cfgNone =
      Value.skip ∧
    parseValueWithConfig ("\x7blength = 256; bytes = 0x1234; extra = \"data\";\x7d")
      cfgNone =
      Value.dict [("length", Value.str "256"), ("bytes", Value.str "0x1234"),
        ("extra", Value.str "data")] ["length", "bytes", "extra"] cfgNone := by
  refine ⟨?_, rfl, rfl⟩
  intro s
  cases hA : containsS s ("length =") <;>
    cases hB : containsS s ("bytes =") <;>
      cases hC : containsS s ("bytes = 0x") <;>
        simp only [isBinaryDataValue, isBinaryAmended, binaryParts, validKeysLoop_eq,
          Nat.zero_add, hA, hB, hC, Bool.not_true, Bool.not_false, Bool.false_or,
          Bool.or_false, Bool.true_or, Bool.or_true, Bool.false_and, Bool.true_and,
          Bool.and_false, Bool.false_eq_true, Bool.true_eq_false, if_true, if_false]
  exact ifCount_beq _ _

end D2N

namespace D2N

set_option maxRecDepth 40000

/-- A successful map read returns a pair of the list. -/
theorem mapGet_mem (m : List (String × Value)) (k : String) (v : Value)
    (h : mapGet m k = some v) : (k, v) ∈ m := by
  induction m with
  | nil => cases h
  | cons p rest ih =>
    rw [mapGet] at h
    by_cases hk : p.1 = k
    · rw [if_pos (by simp [hk])] at h
      cases h
      subst hk
      simp
    · rw [if_neg (by simp [hk])] at h
      exact List.mem_cons_of_mem _ (ih h)

end D2N

namespace D2N

/-- Rendering an all-Skip array at any positive fuel gives the empty-list
    literal. -/
theorem toNixF_arr_allskip (fuel : Nat) (vs : List Value) (ind : Nat)
    (h : vs.all Value.isSkipB = true) :
    Value.toNixF (fuel + 1) (Value.arr vs) ind = "[]" := by
  have hf : vs.filter (fun w => !w.isSkipB) = [] := by
    rw [List.filter_eq_nil]
    intro a ha
    have := List.all_eq_true.mp h a ha
    simp [this]
  simp [Value.toNixF, hf]

/-- Rendering a non-empty dictionary whose entries are all Skip-valued at
    any positive fuel gives an open brace and an indented closing brace
    with nothing between. -/
theorem toNixF_dict_allskip (fuel : Nat) (values : List (String × Value))
    (order : List String) (cfg : ParseConfig) (ind : Nat)
    (hne : values ≠ []) (h : values.all (fun p => p.2.isSkipB) = true) :
    Value.toNixF (fuel + 1) (Value.dict values order cfg) ind =
      "\x7b\n" ++ (indentStr ind ++ "\x7d") := by
  have hkept : keptEntries values order cfg = [] := by
    simp only [keptEntries]
    rw [List.filter_eq_nil]
    intro p hp
    obtain ⟨a, -, hmap⟩ := List.mem_filterMap.mp hp
    obtain ⟨v, hget, hpair⟩ := Option.map_eq_some'.mp hmap
    have hmem : (a, v) ∈ values := mapGet_mem _ _ _ hget
    have hskip : v.isSkipB = true := by
      have := List.all_eq_true.mp h _ hmem
      simpa using this
    rw [← hpair]
    simp [keepEntry, hskip]
  rw [Value.toNixF]
  rw [if_neg (by simp [hne])]
  rw [hkept]
  simp [joinNL]

/-- Pointwise equal option maps give equal filterMaps. -/
theorem fmCongr {α β : Type} (l : List α) (f g : α → Option β)
    (h : ∀ x ∈ l, f x = g x) : l.filterMap f = l.filterMap g := by
  induction l with
  | nil => rfl
  | cons a rest ih =>
    rw [List.filterMap_cons, List.filterMap_cons, h a (by simp),
      ih (fun x hx => h x (by simp [hx]))]

/-- With unique keys, resolving every key of the map in order returns the
    map entries themselves. -/
theorem keysResolve (values : List (String × Value))
    (hnd : (values.map Prod.fst).Nodup) :
    (values.map Prod.fst).filterMap
      (fun k => (mapGet values k).map (fun v => (k, v))) = values := by
  induction values with
  | nil => rfl
  | cons p rest ih =>
    rw [List.map_cons, List.filterMap_cons]
    have hhead : mapGet (p :: rest) p.1 = some p.2 := by
      rw [mapGet, if_pos (by simp)]
    rw [hhead]
    have htail : ∀ k ∈ rest.map Prod.fst,
        (mapGet (p :: rest) k).map (fun v => (k, v)) =
        (mapGet rest k).map (fun v => (k, v)) := by
      intro k hk
      have hne : p.1 ≠ k := by
        intro he
        rw [List.map_cons, List.nodup_cons] at hnd
        exact hnd.1 (he ▸ hk)
      rw [mapGet, if_neg (by simp [hne])]
    rw [fmCongr _ _ _ htail, ih (by rw [List.map_cons, List.nodup_cons] at hnd; exact hnd.2)]
    simp

/-- Rendering an array equals rendering it with the Skip entries removed,
    at every fuel. -/
theorem toNixF_arr_skipfilter (fuel : Nat) (vs : List Value) (ind : Nat) :
    Value.toNixF fuel (Value.arr vs) ind =
    Value.toNixF fuel (Value.arr (vs.filter (fun w => !w.isSkipB))) ind := by
  cases fuel with
  | zero => rfl
  | succ f =>
    simp only [Value.toNixF, List.filter_filter, Bool.and_self]

/-- Rendering a dictionary with unique keys and at least one retained-type
    entry equals rendering it with the Skip-valued entries removed from
    both the map and the order, at every fuel. -/
theorem toNixF_dict_skipfilter (fuel : Nat) (values : List (String × Value))
    (cfg : ParseConfig) (ind : Nat)
    (hnd : (values.map Prod.fst).Nodup)
    (hmix : values.any (fun p => !p.2.isSkipB) = true) :
    Value.toNixF fuel (Value.dict values (values.map Prod.fst) cfg) ind =
    Value.toNixF fuel (Value.dict (values.filter (fun p => !p.2.isSkipB))
      ((values.filter (fun p => !p.2.isSkipB)).map Prod.fst) cfg) ind := by
  obtain ⟨q, hqmem, hq⟩ := List.any_eq_true.mp hmix
  have hne : values ≠ [] := by
    intro he
    rw [he] at hqmem
    cases hqmem
  set values2 := values.filter (fun p => !p.2.isSkipB) with hv2
  have hne2 : values2 ≠ [] := by
    intro he
    have : q ∈ values2 := by
      rw [hv2, List.mem_filter]
      exact ⟨hqmem, hq⟩
    rw [he] at this
    cases this
  have hnd2 : (values2.map Prod.fst).Nodup := by
    refine List.Nodup.sublist ?_ hnd
    exact List.Sublist.map _ (List.filter_sublist _)
  cases fuel with
  | zero => rfl
  | succ f =>
    rw [Value.toNixF]
    rw [Value.toNixF]
    rw [if_neg (by simp [hne]), if_neg (by simp [hne2])]
    have hkeys : (values.map Prod.fst).isEmpty = false := by
      rw [List.isEmpty_eq_false_iff_exists_mem]
      exact ⟨q.1, List.mem_map_of_mem _ hqmem⟩
    have hkeys2 : (values2.map Prod.fst).isEmpty = false := by
      rw [List.isEmpty_eq_false_iff_exists_mem]
      refine ⟨q.1, List.mem_map_of_mem _ ?_⟩
      rw [hv2, List.mem_filter]
      exact ⟨hqmem, hq⟩
    have hk1 : keptEntries values (values.map Prod.fst) cfg =
        values.filter (fun p => keepEntry cfg p.1 p.2) := by
      simp only [keptEntries, hkeys, Bool.false_eq_true, if_false]
      rw [keysResolve values hnd]
    have hk2 : keptEntries values2 (values2.map Prod.fst) cfg =
        values2.filter (fun p => keepEntry cfg p.1 p.2) := by
      simp only [keptEntries, hkeys2, Bool.false_eq_true, if_false]
      rw [keysResolve values2 hnd2]
    have hsame : values2.filter (fun p => keepEntry cfg p.1 p.2) =
        values.filter (fun p => keepEntry cfg p.1 p.2) := by
      rw [hv2, List.filter_filter]
      refine List.filter_congr ?_
      intro p hp
      cases hs : p.2.isSkipB
      · simp [keepEntry, hs]
      · simp [keepEntry, hs]
    rw [hk1, hk2, hsame]

end D2N

namespace D2N

/-- C3 amended: an array whose entries are all Skip renders as the
    empty-list literal; a non-empty Dict whose entries are all Skip-valued
    renders as a brace pair with no entries between (not the empty-map
    literal, which only an empty Dict produces); and rendering an array or
    a unique-keyed dictionary with at least one non-Skip entry equals
    rendering it with the Skip entries removed, so Skip entries are fully
    absent with no stray separators. -/
theorem c3_amended :
    (∀ (vs : List Value) (ind : Nat), vs.all Value.isSkipB = true →
      (Value.arr vs).toNix ind = "[]") ∧
    (∀ (values : List (String × Value)) (order : List String) (cfg : ParseConfig)
      (ind : Nat), values ≠ [] → values.all (fun p => p.2.isSkipB) = true →
      (Value.dict values order cfg).toNix ind = "\x7b\n" ++ (indentStr ind ++ "\x7d")) ∧
    (∀ (vs : List Value) (ind : Nat),
      (Value.arr vs).toNix ind =
        (Value.arr (vs.filter (fun w => !w.isSkipB))).toNix ind) ∧
    (∀ (values : List (String × Value)) (cfg : ParseConfig) (ind : Nat),
      (values.map Prod.fst).Nodup → values.any (fun p => !p.2.isSkipB) = true →
      (Value.dict values (values.map Prod.fst) cfg).toNix ind =
        (Value.dict (values.filter (fun p => !p.2.isSkipB))
          ((values.filter (fun p => !p.2.isSkipB)).map Prod.fst) cfg).toNix ind) := by
  refine ⟨?_, ?_, ?_, ?_⟩
  · intro vs ind h
    exact toNixF_arr_allskip 63 vs ind h
  · intro values order cfg ind hne h
    exact toNixF_dict_allskip 63 values order cfg ind hne h
  · intro vs ind
    exact toNixF_arr_skipfilter renderFuel vs ind
  · intro values cfg ind hnd hmix
    exact toNixF_dict_skipfilter renderFuel values cfg ind hnd hmix

/-- Witness for C3 amended at concrete mixed and all-Skip containers. -/
theorem c3_amended_witness :
    (Value.arr [Value.skip, Value.skip]).toNix 0 = "[]" ∧
    (Value.dict [("k", Value.skip)] ["k"] cfgNone).toNix 1 =
      "\x7b\n" ++ (indentStr 1 ++ "\x7d") ∧
    (Value.arr [Value.skip, Value.str "x"]).toNix 0 =
      (Value.arr [Value.str "x"]).toNix 0 ∧
    (Value.dict [("a", Value.skip), ("b", Value.str "1")] ["a", "b"] cfgNone).toNix 0 =
      (Value.dict [("b", Value.str "1")] ["b"] cfgNone).toNix 0 := by
  refine ⟨c3_amended.1 [Value.skip, Value.skip] 0 (by decide),
    c3_amended.2.1 [("k", Value.skip)] ["k"] cfgNone 1 (by simp) (by decide), ?_, ?_⟩
  · have h := c3_amended.2.2.1 [Value.skip, Value.str "x"] 0
    rw [h]
    rfl
  · have h := c3_amended.2.2.2 [("a", Value.skip), ("b", Value.str "1")] cfgNone 0
      (by decide) (by decide)
    rw [show (["a", "b"] : List String) =
      ([("a", Value.skip), ("b", Value.str "1")].map Prod.fst) from rfl]
    rw [h]
    rfl

end D2N

namespace D2N

set_option maxRecDepth 40000

/-- The key list after a map write: unchanged when the key was present,
    extended by the key otherwise. -/
theorem mapSet_keys (m : List (String × Value)) (k : String) (v : Value) :
    ((mapSet m k v).map Prod.fst) =
      if (mapGet m k).isSome then m.map Prod.fst else m.map Prod.fst ++ [k] := by
  induction m with
  | nil => simp [mapSet, mapGet]
  | cons q r ih2 =>
    by_cases hq : q.1 = k
    · simp [mapSet, mapGet, hq]
    · by_cases hr : (mapGet r k).isSome = true
      · simp [mapSet, mapGet, hq, hr, ih2]
      · simp [mapSet, mapGet, hq, hr, ih2]

/-- A present key is a member of the key list. -/
theorem mapGet_isSome_of_mem (m : List (String × Value)) (k : String)
    (hmem : k ∈ m.map Prod.fst) : (mapGet m k).isSome = true := by
  induction m with
  | nil => cases hmem
  | cons q r ih =>
    rw [List.map_cons] at hmem
    by_cases hq : q.1 = k
    · simp [mapGet, hq]
    · rcases List.mem_cons.mp hmem with hmem | hmem
      · exact absurd hmem.symm hq
      · simp [mapGet, hq, ih hmem]

/-- Writing a key leaves the unique-keys property of the map intact. -/
theorem mapSet_keys_nodup (m : List (String × Value)) (k : String) (v : Value)
    (h : (m.map Prod.fst).Nodup) : ((mapSet m k v).map Prod.fst).Nodup := by
  rw [mapSet_keys]
  by_cases hs : (mapGet m k).isSome = true
  · rw [if_pos hs]
    exact h
  · rw [if_neg hs]
    have hnotmem : k ∉ m.map Prod.fst := fun hmem => hs (mapGet_isSome_of_mem m k hmem)
    simp [List.nodup_append, h, hnotmem]

/-- After writing a key, reading it back succeeds. -/
theorem mapGet_mapSet_self (m : List (String × Value)) (k : String) (v : Value) :
    mapGet (mapSet m k v) k = some v := by
  induction m with
  | nil => simp [mapSet, mapGet]
  | cons p rest ih =>
    by_cases hk : p.1 = k
    · simp [mapSet, mapGet, hk]
    · simp [mapSet, mapGet, hk, ih]

/-- Writing one key does not change the reads of other keys. -/
theorem mapGet_mapSet_ne (m : List (String × Value)) (k k2 : String) (v : Value)
    (hk : k2 ≠ k) : mapGet (mapSet m k v) k2 = mapGet m k2 := by
  induction m with
  | nil => simp [mapSet, mapGet, Ne.symm hk]
  | cons p rest ih =>
    by_cases hp : p.1 = k
    · simp [mapSet, mapGet, hp, Ne.symm hk]
    · by_cases hp2 : p.1 = k2
      · simp [mapSet, mapGet, hp, hp2, hk]
      · simp [mapSet, mapGet, hp, hp2, ih]

/-- Writing one key keeps every present key present. -/
theorem mapGet_mapSet_isSome (m : List (String × Value)) (k k2 : String) (v : Value)
    (h : (mapGet m k2).isSome = true) : (mapGet (mapSet m k v) k2).isSome = true := by
  by_cases hk : k2 = k
  · rw [hk, mapGet_mapSet_self]
    rfl
  · rw [mapGet_mapSet_ne m k k2 v hk]
    exact h

end D2N

namespace D2N

/-- The commit fold of the dictionary parser preserves unique map keys
    and keeps every key recorded in the order list present in the map. -/
theorem dictFold_inv (pv : String → Value) (pairs : List (List Char × List Char))
    (acc : List (String × Value) × List String)
    (hnd : (acc.1.map Prod.fst).Nodup)
    (hord : ∀ k ∈ acc.2, (mapGet acc.1 k).isSome = true) :
    ((pairs.foldl (dictCommit pv) acc).1.map Prod.fst).Nodup ∧
    (∀ k ∈ (pairs.foldl (dictCommit pv) acc).2,
      (mapGet (pairs.foldl (dictCommit pv) acc).1 k).isSome = true) := by
  induction pairs generalizing acc with
  | nil => exact ⟨hnd, hord⟩
  | cons p rest ih =>
    rw [List.foldl_cons]
    apply ih
    · simp only [dictCommit]
      exact mapSet_keys_nodup _ _ _ hnd
    · intro k hk
      simp only [dictCommit] at hk ⊢
      rcases List.mem_append.mp hk with hk | hk
      · exact mapGet_mapSet_isSome _ _ _ _ (hord k hk)
      · have hke : k = String.mk p.1 := by simpa using hk
        rw [hke, mapGet_mapSet_self]
        rfl

/-- C4 amended: every parser-produced Dict has unique map keys
    (last-write-wins), and every key in the ordered key list is present in
    the map; but the ordered key list records one entry per committed
    pair, so a duplicated input key appears twice in the order and the
    final value is rendered once per occurrence. -/
theorem c4_amended :
    (∀ (pv : String → Value) (input : String),
      ((parseDictWith pv input).1.map Prod.fst).Nodup) ∧
    (∀ (pv : String → Value) (input : String) (k : String),
      k ∈ (parseDictWith pv input).2 →
      (mapGet (parseDictWith pv input).1 k).isSome = true) ∧
    parseDictWithConfig ("\x7ba = 1; a = 2;\x7d") cfgNone =
      Value.dict [("a", Value.str "2")] ["a", "a"] cfgNone ∧
    (parseDictWithConfig ("\x7ba = 1; a = 2;\x7d") cfgNone).toNix 0 =
      "\x7b\n  a = 2;\n  a = 2;\n\x7d" := by
  have hmain : ∀ (pv : String → Value) (input : String),
      ((parseDictWith pv input).1.map Prod.fst).Nodup ∧
      (∀ k ∈ (parseDictWith pv input).2,
        (mapGet (parseDictWith pv input).1 k).isSome = true) := by
    intro pv input
    simp only [parseDictWith]
    split
    · constructor
      · simp
      · intro k hk
        cases hk
    · exact dictFold_inv pv _ ([], []) (by simp) (by intro k hk; cases hk)
  exact ⟨fun pv input => (hmain pv input).1,
    fun pv input => (hmain pv input).2, rfl, by decide⟩

/-- Witness for C4 amended on a concrete two-key dictionary. -/
theorem c4_amended_witness :
    ((parseDictWith (fun s => Value.str s) ("\x7bx = 1; y = 2;\x7d")).1.map
      Prod.fst).Nodup ∧
    (mapGet (parseDictWith (fun s => Value.str s) ("\x7bx = 1; y = 2;\x7d")).1
      "y").isSome = true := by
  exact ⟨c4_amended.1 (fun s => Value.str s) ("\x7bx = 1; y = 2;\x7d"),
    c4_amended.2.1 (fun s => Value.str s) ("\x7bx = 1; y = 2;\x7d") "y" (by decide)⟩

end D2N

namespace D2N

set_option maxRecDepth 40000

/-- C7 amended: the detector validates the time component only in the
    space-separated HH:MM:SS colon layout — there any hour above 23,
    minute above 59 or second above 59 forces rejection — while a T
    separator (or a space followed by anything not shaped HH:MM:SS) is
    accepted without time validation; the date part is bounds-checked as
    the claim states, with day 31 accepted for every month. -/
theorem c7_amended :
    (∀ (t1 t2 t3 t4 t5 t6 : Char) (rest : List Char),
      t1.isDigit = true → t2.isDigit = true → t3.isDigit = true →
      t4.isDigit = true → t5.isDigit = true → t6.isDigit = true →
      (23 < (t1.toNat - 48) * 10 + (t2.toNat - 48) ∨
       59 < (t3.toNat - 48) * 10 + (t4.toNat - 48) ∨
       59 < (t5.toNat - 48) * 10 + (t6.toNat - 48)) →
      isDateStringL (("2025-06-07 ").data ++
        t1 :: t2 :: ':' :: t3 :: t4 :: ':' :: t5 :: t6 :: rest) = false) ∧
    isDateString ("2025-06-07") = true ∧
    isDateString ("2025-06-07 12:01:44 +0000") = true ∧
    isDateString ("2025-06-07T12:01:44Z") = true ∧
    isDateString ("2025-06-07T25:61:61") = true ∧
    isDateString ("2025-06-07 absolutely") = true ∧
    isDateString ("2025-06-31") = true ∧
    isDateString ("1899-12-31") = false ∧
    isDateString ("2101-01-01") = false ∧
    isDateString ("2025-00-01") = false ∧
    isDateString ("2025-13-01") = false ∧
    isDateString ("2025-06-00") = false ∧
    isDateString ("2025-06-32") = false ∧
    isDateString ("2025-06-07x") = false ∧
    isDateString ("2025-06-07 24:00:00") = false ∧
    isDateString ("2025-06-07 12:60:44") = false ∧
    isDateString ("2025-06-07 12:01:60") = false ∧
    isDateString ("2025-06-07 a2:01:44") = false := by
  constructor
  case right => decide
  intro t1 t2 t3 t4 t5 t6 rest h1 h2 h3 h4 h5 h6 hbound
  rw [show ("2025-06-07 ").data = ['2','0','2','5','-','0','6','-','0','7',' ']
    from rfl]
  simp only [List.cons_append, List.nil_append]
  rcases hbound with hb | hb | hb <;>
    simp [isDateStringL, h1, h2, h3, h4, h5, h6, decide_eq_true hb, List.length_cons]

/-- Witness for C7 amended: the hour 24, minute 60 and second 60 cases of
    the universal bound, instantiated concretely. -/
theorem c7_amended_witness :
    isDateStringL (("2025-06-07 ").data ++
      '2' :: '4' :: ':' :: '0' :: '0' :: ':' :: '0' :: '0' :: []) = false ∧
    isDateStringL (("2025-06-07 ").data ++
      '1' :: '2' :: ':' :: '6' :: '0' :: ':' :: '4' :: '4' :: []) = false ∧
    isDateStringL (("2025-06-07 ").data ++
      '1' :: '2' :: ':' :: '0' :: '1' :: ':' :: '6' :: '0' :: [' ']) = false := by
  exact ⟨c7_amended.1 '2' '4' '0' '0' '0' '0' [] (by decide) (by decide) (by decide)
      (by decide) (by decide) (by decide) (Or.inl (by decide)),
    c7_amended.1 '1' '2' '6' '0' '4' '4' [] (by decide) (by decide) (by decide)
      (by decide) (by decide) (by decide) (Or.inr (Or.inl (by decide))),
    c7_amended.1 '1' '2' '0' '1' '6' '0' [' '] (by decide) (by decide) (by decide)
      (by decide) (by decide) (by decide) (Or.inr (Or.inr (by decide)))⟩

end D2N
